import Mathlib

/-!
Shallow embedding of the video-asset server (`src/server.ts`): the upload,
delete and rename HTTP handlers, the monthly quota ledger, filename
sanitization and `path.extname`-based key computation.  External calls
(object-store put/copy/delete, SQLite inserts/updates) are modelled by
explicit success flags; the durable state (object keys, metadata rows,
upload-history ledger) is an explicit `Store` value threaded through each
handler.
-/

namespace VideoServer

/-- JS `s.startsWith(p)` on the key strings (`oldKey.startsWith("videos/")`). -/
def strStartsWith (s p : String) : Bool :=
  p.data.isPrefixOf s.data

/-- JS `s.endsWith(t)` (`sanitizedNewName.endsWith(extension)`). -/
def strEndsWith (s t : String) : Bool :=
  t.data.isSuffixOf s.data

/-- The character allow-list of the sanitization regex `[^a-zA-Z0-9.-]`:
a character is kept exactly when it matches `[a-zA-Z0-9.-]`. -/
def isAllowedChar (c : Char) : Bool :=
  (decide ('a' ≤ c) && decide (c ≤ 'z')) ||
  (decide ('A' ≤ c) && decide (c ≤ 'Z')) ||
  (decide ('0' ≤ c) && decide (c ≤ '9')) ||
  c == '.' || c == '-'

/-- One step of `replace(/[^a-zA-Z0-9.-]/g, "_")`: a disallowed character
becomes an underscore, an allowed one is kept. -/
def sanitizeChar (c : Char) : Char :=
  if isAllowedChar c then c else '_'

/-- `name.replace(/[^a-zA-Z0-9.-]/g, "_")` (used at `server.ts:169` and
`server.ts:241`). -/
def sanitize (s : String) : String :=
  String.mk (s.data.map sanitizeChar)

/-- The basename of a path: the last `/`-separated component, with trailing
slashes ignored (as Node's `path` module does). -/
def basenameChars (l : List Char) : List Char :=
  (((l.reverse.dropWhile fun c => c == '/').takeWhile fun c => !(c == '/'))).reverse

/-- Node's `path.extname`: the substring of the basename from its last dot,
empty when there is no dot, when the only dot leads the basename, or when
the basename is exactly `..`. -/
def extname (p : String) : String :=
  let b := basenameChars p.data
  if b == ['.', '.'] then ""
  else
    let pre := b.reverse.takeWhile fun c => !(c == '.')
    if pre.length + 1 < b.length then String.mk ('.' :: pre.reverse) else ""

/-- A row of `upload_history`: the payload size and the `YYYY-MM` month of
its timestamp (only the month is ever consulted by the quota queries). -/
structure LedgerEntry where
  size : Nat
  month : String
deriving DecidableEq

/-- A row of `video_metadata`. -/
structure MetaRow where
  videoKey : String
  uploaderId : String
  uploaderName : String
deriving DecidableEq

/-- The durable state: object-store keys, metadata rows, quota ledger. -/
structure Store where
  objects : List String
  metadata : List MetaRow
  ledger : List LedgerEntry
deriving DecidableEq

/-- `SELECT SUM(size) FROM upload_history WHERE strftime = month`, with the
`|| 0` null-coalescing of the handler (empty sum is 0). -/
def monthlyUsage (ledger : List LedgerEntry) (month : String) : Nat :=
  ((ledger.filter fun e => e.month == month).map fun e => e.size).sum

/-- `const limit = 10 * 1024 * 1024 * 1024` (10 GiB). -/
def monthlyLimit : Nat := 10 * 1024 * 1024 * 1024

/-- The upload key `videos/${Date.now()}-${originalName}` at
`server.ts:170-171` (`now` carries the stringified timestamp). -/
def uploadKey (now : String) (originalname : String) : String :=
  "videos/" ++ (now ++ ("-" ++ sanitize originalname))

/-- Incoming upload request: payload size, original filename, and the
uploader fields of the body (empty string models a missing/falsy field). -/
structure UploadReq where
  fileSize : Nat
  originalname : String
  uploaderId : String
  uploaderName : String

/-- Environment of one upload request: the timestamp string, the current
month, and the outcomes of the external calls (object put, metadata
insert, ledger insert). -/
structure UploadEnv where
  now : String
  month : String
  putOk : Bool
  metaOk : Bool
  ledgerOk : Bool

inductive UploadResult where
  | ok (key : String)
  | quotaExceeded
  | storageError
  | dbError
deriving DecidableEq

/-- The `POST /api/upload` handler (`server.ts:146-197`): quota check, then
object put, then conditional metadata insert, then ledger insert.  A
thrown error at any step is caught and reported, leaving later steps
unexecuted. -/
def uploadVideo (st : Store) (req : UploadReq) (env : UploadEnv) :
    UploadResult × Store :=
  let totalUsage := monthlyUsage st.ledger env.month
  if totalUsage + req.fileSize > monthlyLimit then
    (.quotaExceeded, st)
  else
    let key := uploadKey env.now req.originalname
    if !env.putOk then
      (.storageError, st)
    else
      let st1 : Store := { st with objects := key :: st.objects }
      let afterMeta : Option Store :=
        if !(req.uploaderId == "") && !(req.uploaderName == "") then
          if env.metaOk then
            some { st1 with metadata :=
              ⟨key, req.uploaderId, req.uploaderName⟩ :: st1.metadata }
          else none
        else some st1
      match afterMeta with
      | none => (.dbError, st1)
      | some st2 =>
        if !env.ledgerOk then
          (.dbError, st2)
        else
          (.ok key, { st2 with ledger := ⟨req.fileSize, env.month⟩ :: st2.ledger })

inductive DeleteResult where
  | ok
  | invalid
  | storageError
deriving DecidableEq

/-- The `DELETE /api/videos/*` handler (`server.ts:199-225`): key
validation, object-store delete, then unconditional metadata-row delete.
A thrown object-store error is caught and reported as a 500 before the
metadata delete runs. -/
def deleteVideo (st : Store) (key : String) (objDeleteOk : Bool) :
    DeleteResult × Store :=
  if key == "" || !(strStartsWith key "videos/") then
    (.invalid, st)
  else if !objDeleteOk then
    (.storageError, st)
  else
    (.ok, { st with
      objects := st.objects.filter fun k => !(k == key),
      metadata := st.metadata.filter fun r => !(r.videoKey == key) })

/-- The new key computed at `server.ts:240-242`: fixed namespace, sanitized
display name, and the old key's extension unless already a suffix. -/
def renameNewKey (oldKey newName : String) : String :=
  let extension := extname oldKey
  let sanitizedNewName := sanitize newName
  "videos/" ++ (sanitizedNewName ++
    (if strEndsWith sanitizedNewName extension then "" else extension))

inductive StoreCall where
  | copy (src dst : String)
  | del (key : String)
deriving DecidableEq

inductive RenameResult where
  | ok (key : String)
  | invalid
  | storageError
deriving DecidableEq

/-- The `PATCH /api/videos/*` handler (`server.ts:227-269`): validation,
no-op short-circuit, then copy → delete-old → metadata key update.  The
third component records the object-store calls issued, in order; a thrown
error is caught and reported, leaving later steps unexecuted. -/
def renameVideo (st : Store) (oldKey newName : String)
    (copyOk deleteOk metaOk : Bool) :
    RenameResult × Store × List StoreCall :=
  if oldKey == "" || !(strStartsWith oldKey "videos/") || newName == "" then
    (.invalid, st, [])
  else
    let newKey := renameNewKey oldKey newName
    if oldKey == newKey then
      (.ok oldKey, st, [])
    else if !copyOk then
      (.storageError, st, [.copy oldKey newKey])
    else
      let st1 : Store := { st with objects := newKey :: st.objects }
      if !deleteOk then
        (.storageError, st1, [.copy oldKey newKey, .del oldKey])
      else
        let st2 : Store := { st1 with
          objects := st1.objects.filter fun k => !(k == oldKey) }
        if !metaOk then
          (.storageError, st2, [.copy oldKey newKey, .del oldKey])
        else
          let st3 : Store := { st2 with
            metadata := st2.metadata.map fun r =>
              if r.videoKey == oldKey then { r with videoKey := newKey } else r }
          (.ok newKey, st3, [.copy oldKey newKey, .del oldKey])

/-! ## Helper lemmas -/

theorem sanitizeChar_sanitizeChar (c : Char) :
    sanitizeChar (sanitizeChar c) = sanitizeChar c := by
  unfold sanitizeChar
  by_cases h : isAllowedChar c = true
  · simp [h]
  · simp only [Bool.not_eq_true] at h
    simp [h]

theorem data_sanitize (s : String) :
    (sanitize s).data = s.data.map sanitizeChar := rfl

theorem mem_sanitize_data {c : Char} {s : String} (h : c ∈ (sanitize s).data) :
    isAllowedChar c = true ∨ c = '_' := by
  rw [data_sanitize] at h
  obtain ⟨a, _, rfl⟩ := List.mem_map.mp h
  unfold sanitizeChar
  by_cases ha : isAllowedChar a = true
  · simp [ha]
  · simp only [Bool.not_eq_true] at ha
    simp [ha]

theorem isAllowedChar_spec {c : Char} (h : isAllowedChar c = true) :
    ('A' ≤ c ∧ c ≤ 'Z') ∨ ('a' ≤ c ∧ c ≤ 'z') ∨ ('0' ≤ c ∧ c ≤ '9') ∨
      c = '.' ∨ c = '-' := by
  simp only [isAllowedChar, Bool.or_eq_true, Bool.and_eq_true,
    decide_eq_true_eq, beq_iff_eq] at h
  tauto

theorem isAllowedChar_ne_slash {c : Char} (h : isAllowedChar c = true) :
    ¬ c = '/' := by
  intro hc
  subst hc
  exact absurd h (by decide)

theorem mem_basenameChars_ne_slash {c : Char} {l : List Char}
    (h : c ∈ basenameChars l) : ¬ c = '/' := by
  unfold basenameChars at h
  have h1 := List.mem_reverse.mp h
  have h2 := List.mem_takeWhile_imp h1
  simp only [Bool.not_eq_true'] at h2
  intro hc
  subst hc
  simp at h2

theorem mem_extname_ne_slash {c : Char} {p : String}
    (h : c ∈ (extname p).data) : ¬ c = '/' := by
  unfold extname at h
  by_cases hb : (basenameChars p.data == ['.', '.']) = true
  · simp [hb] at h
  · simp only [Bool.not_eq_true] at hb
    simp only [hb, Bool.false_eq_true, if_false] at h
    by_cases hlen : ((basenameChars p.data).reverse.takeWhile
        (fun c => !(c == '.'))).length + 1 < (basenameChars p.data).length
    · simp only [hlen, if_true] at h
      rcases List.mem_cons.mp h with hc | hc
      · subst hc; decide
      · have h1 := List.mem_reverse.mp hc
        have h2 := (List.takeWhile_sublist _).subset h1
        exact mem_basenameChars_ne_slash (List.mem_reverse.mp h2)
    · simp [hlen] at h

theorem startsWith_videos_ne_empty {k : String}
    (h : strStartsWith k "videos/" = true) : (k == "") = false := by
  cases hk : (k == "") with
  | false => rfl
  | true =>
    have : k = "" := by simpa using hk
    subst this
    exact absurd h (by decide)

theorem isPrefixOf_append_self (l t : List Char) : l.isPrefixOf (l ++ t) = true := by
  rw [List.isPrefixOf_iff_prefix]
  exact List.prefix_append l t

theorem monthlyUsage_cons_same (s : Nat) (m : String) (l : List LedgerEntry) :
    monthlyUsage (⟨s, m⟩ :: l) m = s + monthlyUsage l m := by
  simp [monthlyUsage, List.filter_cons]

/-! ## The claims -/

/-- C6: sanitization is total, deterministic and idempotent: for every input
name the sanitized result contains only characters in `[A-Za-z0-9._-]`,
every character outside `[A-Za-z0-9.-]` is replaced with an underscore, and
sanitizing twice yields the same result as sanitizing once. -/
theorem sanitize_total_idempotent (s : String) :
    (∀ c ∈ (sanitize s).data,
      ('A' ≤ c ∧ c ≤ 'Z') ∨ ('a' ≤ c ∧ c ≤ 'z') ∨ ('0' ≤ c ∧ c ≤ '9') ∨
        c = '.' ∨ c = '_' ∨ c = '-') ∧
    (∀ c, isAllowedChar c = false → sanitizeChar c = '_') ∧
    sanitize (sanitize s) = sanitize s := by
  refine ⟨?_, ?_, ?_⟩
  · intro c hc
    rcases mem_sanitize_data hc with h | h
    · rcases isAllowedChar_spec h with h1 | h1 | h1 | h1 | h1 <;> tauto
    · tauto
  · intro c hc
    simp [sanitizeChar, hc]
  · show String.mk ((s.data.map sanitizeChar).map sanitizeChar)
        = String.mk (s.data.map sanitizeChar)
    rw [List.map_map]
    congr 1
    exact List.map_congr_left fun c _ => sanitizeChar_sanitizeChar c

/-- C5: the rename key is the `videos/` namespace plus the sanitized new
display name, with the old key's extension appended exactly when the
sanitized name does not already end with it; in particular renaming
`videos/1690000000-clip.mp4` with display name `My Clip!!` yields
`videos/My_Clip__.mp4`. -/
theorem renameNewKey_spec :
    extname "videos/1690000000-clip.mp4" = ".mp4" ∧
    sanitize "My Clip!!" = "My_Clip__" ∧
    renameNewKey "videos/1690000000-clip.mp4" "My Clip!!"
      = "videos/My_Clip__.mp4" ∧
    ∀ oldKey newName : String,
      renameNewKey oldKey newName =
        "videos/" ++ (sanitize newName ++
          (if strEndsWith (sanitize newName) (extname oldKey)
            then "" else extname oldKey)) := by
  refine ⟨by decide, by decide, by decide, fun oldKey newName => rfl⟩

/-- C2: whenever the current-month ledger sum plus the payload size exceeds
the 10 GiB monthly limit, the upload is rejected with the QuotaExceeded
error and the whole store — objects, metadata and ledger — is unchanged. -/
theorem upload_quota_reject (st : Store) (req : UploadReq) (env : UploadEnv)
    (h : monthlyUsage st.ledger env.month + req.fileSize > monthlyLimit) :
    uploadVideo st req env = (.quotaExceeded, st) := by
  simp [uploadVideo, h]

/-- Witness for C2: with the month's ledger already holding a 10 GiB entry,
a 1-byte upload is rejected and the store is unchanged. -/
theorem upload_quota_reject_w :
    uploadVideo ⟨[], [], [⟨10737418240, "2026-10"⟩]⟩
        ⟨1, "a.mp4", "u1", "Ann"⟩ ⟨"1690000000", "2026-10", true, true, true⟩
      = (.quotaExceeded, ⟨[], [], [⟨10737418240, "2026-10"⟩]⟩) :=
  upload_quota_reject ⟨[], [], [⟨10737418240, "2026-10"⟩]⟩
    ⟨1, "a.mp4", "u1", "Ann"⟩ ⟨"1690000000", "2026-10", true, true, true⟩
    (by decide)

/-- C3: when the current-month ledger sum plus the payload size is within
the 10 GiB limit and the external writes succeed, the upload succeeds and
exactly one ledger entry of the payload size is appended, so the
current-month usage grows by exactly the payload size. -/
theorem upload_quota_account (st : Store) (req : UploadReq) (env : UploadEnv)
    (hq : monthlyUsage st.ledger env.month + req.fileSize ≤ monthlyLimit)
    (hput : env.putOk = true) (hmeta : env.metaOk = true)
    (hled : env.ledgerOk = true) :
    (uploadVideo st req env).1 = .ok (uploadKey env.now req.originalname) ∧
    (uploadVideo st req env).2.ledger
      = ⟨req.fileSize, env.month⟩ :: st.ledger ∧
    monthlyUsage (uploadVideo st req env).2.ledger env.month
      = monthlyUsage st.ledger env.month + req.fileSize := by
  have hq' : ¬ monthlyUsage st.ledger env.month + req.fileSize > monthlyLimit := by
    omega
  have hq2 : ¬ monthlyLimit < req.fileSize + monthlyUsage st.ledger env.month := by
    omega
  by_cases hu : (!(req.uploaderId == "") && !(req.uploaderName == "")) = true
  · refine ⟨?_, ?_, ?_⟩ <;>
      simp [uploadVideo, hq', hq2, hput, hmeta, hled, hu, monthlyUsage_cons_same,
        Nat.add_comm]
  · simp only [Bool.not_eq_true] at hu
    refine ⟨?_, ?_, ?_⟩ <;>
      simp [uploadVideo, hq', hq2, hput, hmeta, hled, hu, monthlyUsage_cons_same,
        Nat.add_comm]

/-- Witness for C3: an 8 GiB upload into a month holding 2 GiB succeeds,
appends one ledger entry, and usage becomes 2 GiB + 8 GiB. -/
theorem upload_quota_account_w :
    (uploadVideo ⟨[], [], [⟨2147483648, "2026-10"⟩]⟩
        ⟨8589934592, "clip.mp4", "u1", "Ann"⟩
        ⟨"1690000000", "2026-10", true, true, true⟩).1
      = .ok "videos/1690000000-clip.mp4" ∧
    (uploadVideo ⟨[], [], [⟨2147483648, "2026-10"⟩]⟩
        ⟨8589934592, "clip.mp4", "u1", "Ann"⟩
        ⟨"1690000000", "2026-10", true, true, true⟩).2.ledger
      = [⟨8589934592, "2026-10"⟩, ⟨2147483648, "2026-10"⟩] ∧
    monthlyUsage (uploadVideo ⟨[], [], [⟨2147483648, "2026-10"⟩]⟩
        ⟨8589934592, "clip.mp4", "u1", "Ann"⟩
        ⟨"1690000000", "2026-10", true, true, true⟩).2.ledger "2026-10"
      = monthlyUsage [⟨2147483648, "2026-10"⟩] "2026-10" + 8589934592 :=
  upload_quota_account ⟨[], [], [⟨2147483648, "2026-10"⟩]⟩
    ⟨8589934592, "clip.mp4", "u1", "Ann"⟩
    ⟨"1690000000", "2026-10", true, true, true⟩
    (by decide) rfl rfl rfl

/-- C9: within quota, a failing object-store put aborts the upload with the
store fully unchanged (no metadata row, no ledger entry); and after a
successful put the stored object is never rolled back — its key stays in
the object store even when the ledger write fails and the request errors. -/
theorem upload_failure_atomic (st : Store) (req : UploadReq) (env : UploadEnv)
    (hq : monthlyUsage st.ledger env.month + req.fileSize ≤ monthlyLimit) :
    (env.putOk = false → uploadVideo st req env = (.storageError, st)) ∧
    (env.putOk = true →
      uploadKey env.now req.originalname ∈ (uploadVideo st req env).2.objects) ∧
    (env.putOk = true → env.ledgerOk = false →
      (uploadVideo st req env).1 = .dbError ∧
      uploadKey env.now req.originalname ∈ (uploadVideo st req env).2.objects) := by
  have hq' : ¬ monthlyUsage st.ledger env.month + req.fileSize > monthlyLimit := by
    omega
  refine ⟨fun hp => by simp [uploadVideo, hq', hp], fun hp => ?_, fun hp hl => ?_⟩
  · by_cases hu : (!(req.uploaderId == "") && !(req.uploaderName == "")) = true
    · by_cases hm : env.metaOk = true
      · by_cases hl : env.ledgerOk = true <;>
          simp [uploadVideo, hq', hp, hu, hm, hl]
      · simp only [Bool.not_eq_true] at hm
        simp [uploadVideo, hq', hp, hu, hm]
    · simp only [Bool.not_eq_true] at hu
      by_cases hl : env.ledgerOk = true <;>
        simp [uploadVideo, hq', hp, hu, hl]
  · by_cases hu : (!(req.uploaderId == "") && !(req.uploaderName == "")) = true
    · by_cases hm : env.metaOk = true
      · simp [uploadVideo, hq', hp, hu, hm, hl]
      · simp only [Bool.not_eq_true] at hm
        simp [uploadVideo, hq', hp, hu, hm]
    · simp only [Bool.not_eq_true] at hu
      simp [uploadVideo, hq', hp, hu, hl]

/-- Witness for C9: with a failing put nothing is written; with a
successful put and a failing ledger insert the request errors but the
object key stays stored. -/
theorem upload_failure_atomic_w :
    (uploadVideo ⟨[], [], []⟩ ⟨5, "a.mp4", "", ""⟩
        ⟨"1690000000", "2026-10", false, true, true⟩
      = (.storageError, ⟨[], [], []⟩)) ∧
    ((uploadVideo ⟨[], [], []⟩ ⟨5, "a.mp4", "", ""⟩
        ⟨"1690000000", "2026-10", true, true, false⟩).1 = .dbError ∧
      "videos/1690000000-a.mp4" ∈
        (uploadVideo ⟨[], [], []⟩ ⟨5, "a.mp4", "", ""⟩
          ⟨"1690000000", "2026-10", true, true, false⟩).2.objects) :=
  ⟨(upload_failure_atomic ⟨[], [], []⟩ ⟨5, "a.mp4", "", ""⟩
      ⟨"1690000000", "2026-10", false, true, true⟩ (by decide)).1 rfl,
   (upload_failure_atomic ⟨[], [], []⟩ ⟨5, "a.mp4", "", ""⟩
      ⟨"1690000000", "2026-10", true, true, false⟩ (by decide)).2.2 rfl rfl⟩

/-- C4 counterexample: a second deletion of `videos/a.mp4` (object and
metadata already gone) whose object-store delete call fails is answered
with the caught 500 storage error, not with `{success:true}`. -/
theorem delete_failed_call_not_success :
    (deleteVideo ⟨[], [], []⟩ "videos/a.mp4" false).1 = DeleteResult.storageError ∧
    ¬ (deleteVideo ⟨[], [], []⟩ "videos/a.mp4" false).1 = DeleteResult.ok := by
  decide

/-- C4 (amended): a second deletion of a namespaced key reports success
whenever the object-store delete call itself does not error (deleting the
metadata row is unconditional and absent rows raise no error); when the
object-store call fails, the handler catches the error and answers with a
500 error response, leaving the store unchanged — it does not crash, but
it does not report success either. -/
theorem delete_idempotent_graceful (st : Store) (key : String)
    (hpre : strStartsWith key "videos/" = true) :
    deleteVideo st key true
      = (.ok, ⟨st.objects.filter fun k => !(k == key),
               st.metadata.filter fun r => !(r.videoKey == key), st.ledger⟩) ∧
    deleteVideo st key false = (.storageError, st) := by
  have h1 := startsWith_videos_ne_empty hpre
  exact ⟨by simp [deleteVideo, h1, hpre], by simp [deleteVideo, h1, hpre]⟩

/-- Witness for the amended C4: on the empty store (the video already
deleted once), a repeat delete of `videos/a.mp4` succeeds when the
object-store call succeeds and errors gracefully when it fails. -/
theorem delete_idempotent_graceful_w :
    deleteVideo ⟨[], [], []⟩ "videos/a.mp4" true = (.ok, ⟨[], [], []⟩) ∧
    deleteVideo ⟨[], [], []⟩ "videos/a.mp4" false
      = (.storageError, ⟨[], [], []⟩) :=
  delete_idempotent_graceful ⟨[], [], []⟩ "videos/a.mp4" (by decide)

/-- C1: for a validated, non-no-op rename the handler issues the copy, then
the delete of the old key, and only then updates the metadata key: a failed
copy leaves the whole store unchanged; a successful copy followed by a
failed delete leaves both keys' objects in the store with the metadata
still referencing the old key (no rollback of the copy); on full success
the call order is copy before delete and the metadata key is updated. -/
theorem rename_order_atomicity (st : Store) (oldKey newName : String)
    (deleteOk metaOk : Bool)
    (hpre : strStartsWith oldKey "videos/" = true)
    (hname : ¬ newName = "")
    (hne : ¬ oldKey = renameNewKey oldKey newName) :
    (renameVideo st oldKey newName false deleteOk metaOk
      = (.storageError, st, [.copy oldKey (renameNewKey oldKey newName)])) ∧
    (renameVideo st oldKey newName true false metaOk
      = (.storageError,
         ⟨renameNewKey oldKey newName :: st.objects, st.metadata, st.ledger⟩,
         [.copy oldKey (renameNewKey oldKey newName), .del oldKey])) ∧
    (renameVideo st oldKey newName true true true
      = (.ok (renameNewKey oldKey newName),
         ⟨(renameNewKey oldKey newName :: st.objects).filter
            fun k => !(k == oldKey),
          st.metadata.map fun r =>
            if r.videoKey == oldKey
              then { r with videoKey := renameNewKey oldKey newName } else r,
          st.ledger⟩,
         [.copy oldKey (renameNewKey oldKey newName), .del oldKey])) := by
  have h1 := startsWith_videos_ne_empty hpre
  have h2 : (newName == "") = false := beq_eq_false_iff_ne.mpr hname
  have h3 : (oldKey == renameNewKey oldKey newName) = false :=
    beq_eq_false_iff_ne.mpr hne
  refine ⟨?_, ?_, ?_⟩ <;> simp [renameVideo, h1, h2, h3, hpre]

/-- Witness for C1: renaming `videos/old.mp4` to display name `new` on a
one-object store, exercising the failed-copy, failed-delete and
all-success branches. -/
theorem rename_order_atomicity_w :
    (renameVideo ⟨["videos/old.mp4"], [⟨"videos/old.mp4", "u1", "Ann"⟩], []⟩
        "videos/old.mp4" "new" false true true
      = (.storageError,
         ⟨["videos/old.mp4"], [⟨"videos/old.mp4", "u1", "Ann"⟩], []⟩,
         [.copy "videos/old.mp4" "videos/new.mp4"])) ∧
    (renameVideo ⟨["videos/old.mp4"], [⟨"videos/old.mp4", "u1", "Ann"⟩], []⟩
        "videos/old.mp4" "new" true false true
      = (.storageError,
         ⟨["videos/new.mp4", "videos/old.mp4"],
          [⟨"videos/old.mp4", "u1", "Ann"⟩], []⟩,
         [.copy "videos/old.mp4" "videos/new.mp4", .del "videos/old.mp4"])) ∧
    (renameVideo ⟨["videos/old.mp4"], [⟨"videos/old.mp4", "u1", "Ann"⟩], []⟩
        "videos/old.mp4" "new" true true true
      = (.ok "videos/new.mp4",
         ⟨["videos/new.mp4"], [⟨"videos/new.mp4", "u1", "Ann"⟩], []⟩,
         [.copy "videos/old.mp4" "videos/new.mp4", .del "videos/old.mp4"])) :=
  rename_order_atomicity
    ⟨["videos/old.mp4"], [⟨"videos/old.mp4", "u1", "Ann"⟩], []⟩
    "videos/old.mp4" "new" true true (by decide) (by decide) (by decide)

/-- C7: when the computed new key equals the old key, the rename reports
success with that key, issues no object-store call and leaves the store —
metadata included — unchanged, whatever the external calls would do. -/
theorem rename_noop_idempotent (st : Store) (oldKey newName : String)
    (copyOk deleteOk metaOk : Bool)
    (hpre : strStartsWith oldKey "videos/" = true)
    (hname : ¬ newName = "")
    (heq : renameNewKey oldKey newName = oldKey) :
    renameVideo st oldKey newName copyOk deleteOk metaOk
      = (.ok oldKey, st, []) := by
  have h1 := startsWith_videos_ne_empty hpre
  have h2 : (newName == "") = false := beq_eq_false_iff_ne.mpr hname
  have h3 : (oldKey == renameNewKey oldKey newName) = true :=
    beq_iff_eq.mpr heq.symm
  simp [renameVideo, h1, h2, h3, hpre]

/-- Witness for C7: renaming `videos/clip.mp4` to display name `clip.mp4`
computes the same key and is a pure no-op success, even with every
external call set to fail. -/
theorem rename_noop_idempotent_w :
    renameVideo ⟨["videos/clip.mp4"], [], []⟩ "videos/clip.mp4" "clip.mp4"
        false false false
      = (.ok "videos/clip.mp4", ⟨["videos/clip.mp4"], [], []⟩, []) :=
  rename_noop_idempotent ⟨["videos/clip.mp4"], [], []⟩ "videos/clip.mp4"
    "clip.mp4" false false false (by decide) (by decide) (by decide)

/-- C8: a rename whose old key is outside the `videos/` namespace or whose
new display name is empty fails with the 400 validation error before any
object-store call, leaving the store unchanged. -/
theorem rename_validation_first (st : Store) (oldKey newName : String)
    (copyOk deleteOk metaOk : Bool)
    (h : strStartsWith oldKey "videos/" = false ∨ newName = "") :
    renameVideo st oldKey newName copyOk deleteOk metaOk
      = (.invalid, st, []) := by
  rcases h with h | h <;> simp [renameVideo, h]

/-- Witness for C8: renaming the non-namespaced key `clip.mp4` is rejected
with no calls and no state change. -/
theorem rename_validation_first_w :
    renameVideo ⟨["clip.mp4"], [], []⟩ "clip.mp4" "x" true true true
      = (.invalid, ⟨["clip.mp4"], [], []⟩, []) :=
  rename_validation_first ⟨["clip.mp4"], [], []⟩ "clip.mp4" "x" true true true
    (Or.inl (by decide))

/-- Helper for C10: a string extended to the right keeps its prefix. -/
theorem strStartsWith_append (p t : String) : strStartsWith (p ++ t) p = true := by
  unfold strStartsWith
  rw [String.data_append]
  exact isPrefixOf_append_self p.data t.data

/-- C10: every computed rename key starts with `videos/` and its remainder
contains no `/` — the slash is outside the sanitization allow-list and the
appended extension never holds one — so a rename cannot escape the
`videos/` namespace. -/
theorem rename_namespace_confined (oldKey newName : String)
    (_hpre : strStartsWith oldKey "videos/" = true)
    (_hname : ¬ newName = "") :
    strStartsWith (renameNewKey oldKey newName) "videos/" = true ∧
    ∃ rest : String, renameNewKey oldKey newName = "videos/" ++ rest ∧
      ∀ c ∈ rest.data, ¬ c = '/' := by
  have hdef : renameNewKey oldKey newName
      = "videos/" ++ (sanitize newName ++
          (if strEndsWith (sanitize newName) (extname oldKey)
            then "" else extname oldKey)) := rfl
  refine ⟨?_, ⟨sanitize newName ++
      (if strEndsWith (sanitize newName) (extname oldKey)
        then "" else extname oldKey), hdef, ?_⟩⟩
  · rw [hdef]
    exact strStartsWith_append _ _
  · intro c hc
    rw [String.data_append] at hc
    rcases List.mem_append.mp hc with hc | hc
    · rcases mem_sanitize_data hc with ha | ha
      · exact isAllowedChar_ne_slash ha
      · subst ha; decide
    · by_cases he : strEndsWith (sanitize newName) (extname oldKey) = true
      · simp [he] at hc
      · simp only [Bool.not_eq_true] at he
        simp only [he, Bool.false_eq_true, if_false] at hc
        exact mem_extname_ne_slash hc

/-- Witness for C10: the key computed for display name `a/b` under old key
`videos/old.mp4` stays inside the namespace, the slash replaced by an
underscore. -/
theorem rename_namespace_confined_w :
    strStartsWith (renameNewKey "videos/old.mp4" "a/b") "videos/" = true ∧
    ∃ rest : String, renameNewKey "videos/old.mp4" "a/b" = "videos/" ++ rest ∧
      ∀ c ∈ rest.data, ¬ c = '/' :=
  rename_namespace_confined "videos/old.mp4" "a/b" (by decide) (by decide)

end VideoServer
